import Mathlib

/-!
Verification of the BADI capability-registry / plan-executor core.

The definitions below are a shallow embedding of the Python sources:
  - `src/badi/core/planner.py`   (PlanStep, TaskPlan)
  - `src/badi/core/executor.py`  (TaskExecutor.execute_plan, ExecutionResult)
  - `src/badi/modules/base.py`   (ModuleParameter, ModuleCapability, Module,
                                  Module.validate_parameters, ModuleRegistry)
  - `src/badi/modules/memory_tools.py` and `src/badi/modules/system_control.py`
    (concrete module metadata and the shared validate-then-dispatch run pattern)

Python dictionaries are modelled as association lists, module run methods as
functions returning `Except String RunResult` (an `Except.error` models an
uncaught Python exception escaping `run`), and the executor's sequential
nested loops as folds.  Wall-clock duration is omitted (real time).
-/

namespace BADI

/-- Parameter / payload values occurring in plans and results. -/
inductive Value where
  | vStr (s : String)
  | vInt (n : Int)
  | vBool (b : Bool)
  | vNone
  deriving DecidableEq, Repr

/-- A Python dict keyed by strings, as an insertion-ordered association list. -/
abbrev Params := List (String × Value)

/-- Python dict assignment `d[k] = v` (in `validate_parameters` the key is
always absent, so this appends, as CPython dicts do for new keys). -/
def dictSet (ps : Params) (k : String) (v : Value) : Params :=
  if (List.lookup k ps).isSome then
    ps.map (fun kv => if kv.1 = k then (k, v) else kv)
  else
    ps ++ [(k, v)]

/-- `ModuleParameter` from `src/badi/modules/base.py` lines 15-21.
`default = none` models Python `default=None`, which the source treats as
"no declared default" (`param.default is None`). -/
structure ModuleParameter where
  name : String
  type : String
  description : String := ""
  required : Bool := true
  default : Option Value := none
  deriving DecidableEq, Repr

/-- `ModuleCapability` from `src/badi/modules/base.py` lines 24-30. -/
structure ModuleCapability where
  name : String
  description : String := ""
  parameters : List ModuleParameter := []
  deriving DecidableEq, Repr

/-- The dictionary a module `run` returns (`base.py` lines 61-78): a success
flag, an optional result payload (itself a dict), an optional error text. -/
structure RunResult where
  success : Bool
  result : Option Params := none
  error : Option String := none
  deriving DecidableEq, Repr

/-- A capability provider: the static metadata of `Module` (`base.py` lines
33-53) plus its `run` operation.  `Except.error msg` models an uncaught
Python exception with `str(e) = msg` escaping `run`. -/
structure ModuleModel where
  name : String
  description : String := ""
  requires_confirmation : Bool := false
  is_read_only : Bool := true
  capabilities : List ModuleCapability := []
  run : String → Params → Except String RunResult

/-- The registry contents (`ModuleRegistry._modules`); registration keeps one
module per name, so lookup by first match models dict lookup. -/
abbrev Registry := List ModuleModel

/-- `ModuleRegistry.get` (`base.py` lines 195-197). -/
def regGet (reg : Registry) (module_name : String) : Option ModuleModel :=
  reg.find? (fun m => m.name == module_name)

/-- Helper for `splitFirstDot`: scan for the first separator. -/
def splitOnFirstAux (sep : Char) : List Char → List Char → Option (List Char × List Char)
  | [], _ => none
  | c :: rest, acc =>
    if c = sep then some (acc.reverse, rest) else splitOnFirstAux sep rest (c :: acc)

/-- Python `s.split(".", 1)` when unpacked into two names: `some (before,
after)` on the first dot, `none` when the string has no dot (in the executor
that unpacking raises `ValueError`). -/
def splitFirstDot (s : String) : Option (String × String) :=
  match splitOnFirstAux '.' s.toList [] with
  | some (a, b) => some (String.mk a, String.mk b)
  | none => none

/-- `Module.get_capability_names` (`base.py` lines 132-134). -/
def getCapabilityNames (m : ModuleModel) : List String :=
  m.capabilities.map (fun c => c.name)

/-- `ModuleRegistry.get_capability` (`base.py` lines 215-234). -/
def getCapability (reg : Registry) (full_name : String) : Option (ModuleModel × String) :=
  match splitFirstDot full_name with
  | none => none
  | some (module_name, capability_name) =>
    match regGet reg module_name with
    | some m =>
      if capability_name ∈ getCapabilityNames m then some (m, capability_name) else none
    | none => none

/-- The required-parameter loop of `Module.validate_parameters` (`base.py`
lines 101-109): returns at the first missing required parameter without a
default, filling declared defaults of absent required parameters as it goes. -/
def checkRequired : List ModuleParameter → Params → Bool × Option String × Params
  | [], ps => (true, none, ps)
  | p :: rest, ps =>
    if p.required && (List.lookup p.name ps).isNone then
      match p.default with
      | none => (false, some ("Missing required parameter: " ++ p.name), ps)
      | some d => checkRequired rest (dictSet ps p.name d)
    else
      checkRequired rest ps

/-- `Module.validate_parameters` (`base.py` lines 80-109).  The returned
`Params` component models the contents of the (in-place mutated) `params`
dict after the call. -/
def validateParameters (capabilities : List ModuleCapability) (capability : String)
    (params : Params) : Bool × Option String × Params :=
  match capabilities.find? (fun c => c.name == capability) with
  | none => (false, some ("Unknown capability: " ++ capability), params)
  | some capDef => checkRequired capDef.parameters params

/-- The shared `run` pattern of `memory_tools.py` lines 78-95 and
`system_control.py` lines 146-166: validate parameters, on failure return a
failed result without dispatching, otherwise dispatch to the capability
implementation; an exception from the implementation is caught and returned
as a failed result. -/
def genericRun (capabilities : List ModuleCapability)
    (impl : String → Params → Except String RunResult)
    (capability : String) (kwargs : Params) : RunResult :=
  match validateParameters capabilities capability kwargs with
  | (false, err, _) => { success := false, result := none, error := err }
  | (true, _, kwargs2) =>
    match impl capability kwargs2 with
    | Except.ok r => r
    | Except.error e => { success := false, result := none, error := some e }

/-- `PlanStep` from `src/badi/core/planner.py` lines 12-17. -/
structure PlanStep where
  id : Int
  module : String
  description : String := ""
  params : Params := []
  depends_on : List Int := []
  deriving DecidableEq, Repr

/-- `TaskPlan` from `src/badi/core/planner.py` lines 19-22. -/
structure TaskPlan where
  goal : String
  steps : List PlanStep := []
  parallel_groups : List (List Int) := []
  deriving DecidableEq, Repr

/-- `ExecutionResult` from `src/badi/core/executor.py` lines 13-19
(`duration_seconds`, a wall-clock reading, is omitted).  `results` entries
pair the inserted `step_id` with the module run result; `errors` entries are
the `step_id`/`error` pairs the executor appends. -/
structure ExecutionResult where
  success : Bool
  steps_completed : Nat
  steps_failed : Nat
  results : List (Int × RunResult)
  errors : List (Int × String)
  deriving DecidableEq, Repr

/-- `str(e)` of the `ValueError` raised by unpacking a dotless module string
in `module_name, capability = step.module.split(".", 1)`. -/
def unpackErrorMsg : String := "not enough values to unpack (expected 2, got 1)"

/-- What happens to one group entry in the loop body of
`TaskExecutor.execute_plan` (`executor.py` lines 28-44). -/
inductive StepOut where
  | notFound
  | skippedUnknown (module_name : String)
  | ran (r : RunResult)
  | exn (msg : String)
  deriving DecidableEq, Repr

/-- The per-entry behaviour of `executor.py` lines 29-44: look the id up in
`plan.steps` (`continue` when absent), split the qualified name (a dotless
string raises, caught below), look the module up (silently skipped when
unregistered), otherwise run it (a raised exception becomes `exn`). -/
def stepOutcome (reg : Registry) (steps : List PlanStep) (step_id : Int) : StepOut :=
  match steps.find? (fun s => s.id == step_id) with
  | none => StepOut.notFound
  | some step =>
    match splitFirstDot step.module with
    | none => StepOut.exn unpackErrorMsg
    | some (module_name, capability) =>
      match regGet reg module_name with
      | none => StepOut.skippedUnknown module_name
      | some m =>
        match m.run capability step.params with
        | Except.ok r => StepOut.ran r
        | Except.error e => StepOut.exn e

/-- Observable events of the sequential interpreter, used to state temporal
claims: `started` when the executor begins processing a found step,
`invoked` when `module.run` is called, `finished` when the entry's
processing ends. -/
inductive Ev where
  | started (id : Int)
  | invoked (id : Int) (module_name : String) (capability : String)
  | finished (id : Int)
  deriving DecidableEq, Repr

/-- The events one group entry produces, in the order the sequential loop
body of `execute_plan` produces them. -/
def stepEvents (reg : Registry) (steps : List PlanStep) (step_id : Int) : List Ev :=
  match steps.find? (fun s => s.id == step_id) with
  | none => []
  | some step =>
    match splitFirstDot step.module with
    | none => [Ev.started step_id, Ev.finished step_id]
    | some (module_name, capability) =>
      match regGet reg module_name with
      | none => [Ev.started step_id, Ev.finished step_id]
      | some _ =>
        [Ev.started step_id, Ev.invoked step_id module_name capability, Ev.finished step_id]

/-- The executor's accumulators (`results, errors = [], []` and
`completed, failed = 0, 0`, `executor.py` lines 24-25). -/
structure Acc where
  results : List (Int × RunResult)
  errors : List (Int × String)
  completed : Nat
  failed : Nat
  deriving DecidableEq, Repr

/-- How `executor.py` lines 36-44 fold one entry's outcome into the
accumulators: a run result is appended to `results` with the step id and
counted by its success flag; a caught exception is appended to `errors` and
counted as failed; a missing step or unregistered module changes nothing. -/
def applyOutcome (acc : Acc) (step_id : Int) : StepOut → Acc
  | StepOut.notFound => acc
  | StepOut.skippedUnknown _ => acc
  | StepOut.ran r =>
    { acc with
      results := acc.results ++ [(step_id, r)],
      completed := acc.completed + (if r.success then 1 else 0),
      failed := acc.failed + (if r.success then 0 else 1) }
  | StepOut.exn e =>
    { acc with errors := acc.errors ++ [(step_id, e)], failed := acc.failed + 1 }

/-- The inner loop `for step_id in group` of `execute_plan`, also threading
the event trace. -/
def execEntriesTr (reg : Registry) (steps : List PlanStep) :
    List Int → Acc × List Ev → Acc × List Ev
  | [], s => s
  | sid :: rest, (acc, tr) =>
    execEntriesTr reg steps rest
      (applyOutcome acc sid (stepOutcome reg steps sid), tr ++ stepEvents reg steps sid)

/-- The outer loop `for group in plan.parallel_groups` of `execute_plan`. -/
def execGroupsTr (reg : Registry) (steps : List PlanStep) :
    List (List Int) → Acc × List Ev → Acc × List Ev
  | [], s => s
  | g :: gs, s => execGroupsTr reg steps gs (execEntriesTr reg steps g s)

/-- `TaskExecutor.execute_plan` (`executor.py` lines 22-53) together with the
event trace of its sequential execution.  The `require_confirmation`
argument is accepted, as in the source signature, and never used by the
body. -/
def executePlanTr (reg : Registry) (plan : TaskPlan) (require_confirmation : Bool) :
    ExecutionResult × List Ev :=
  let s := execGroupsTr reg plan.steps plan.parallel_groups (Acc.mk [] [] 0 0, [])
  ({ success := s.1.failed == 0,
     steps_completed := s.1.completed,
     steps_failed := s.1.failed,
     results := s.1.results,
     errors := s.1.errors }, s.2)

/-- The `ExecutionResult` returned by `execute_plan`. -/
def executePlan (reg : Registry) (plan : TaskPlan) (require_confirmation : Bool) :
    ExecutionResult :=
  (executePlanTr reg plan require_confirmation).1

/-- The event trace of `execute_plan`. -/
def executeTrace (reg : Registry) (plan : TaskPlan) (require_confirmation : Bool) :
    List Ev :=
  (executePlanTr reg plan require_confirmation).2

/-- The group entries in the order the nested loops visit them. -/
def orderedEntries (plan : TaskPlan) : List Int :=
  plan.parallel_groups.flatten

/-! ### Concrete modules of the repository -/

/-- The capability metadata of `MemoryToolsModule`
(`src/badi/modules/memory_tools.py` lines 21-76). -/
def memoryToolsCapabilities : List ModuleCapability :=
  [ { name := "remember_preference",
      description := "Remember a user preference",
      parameters :=
        [ { name := "key", type := "string", description := "Preference key/name" },
          { name := "value", type := "string", description := "Preference value" },
          { name := "user_id", type := "int", description := "User ID" } ] },
    { name := "get_preference",
      description := "Retrieve a user preference",
      parameters :=
        [ { name := "key", type := "string", description := "Preference key/name" },
          { name := "user_id", type := "int", description := "User ID" } ] },
    { name := "log_message",
      description := "Log a message or note",
      parameters :=
        [ { name := "message", type := "string", description := "Message to log" } ] } ]

/-- The capability implementations of `MemoryToolsModule` (`memory_tools.py`
lines 97-140).  `_log_message` is modelled exactly (it logs and returns its
payload); `_remember_preference` and `_get_preference` depend on the external
database, abstracted as `db`. -/
def memoryToolsImpl (db : String → Params → Except String RunResult)
    (capability : String) (kwargs : Params) : Except String RunResult :=
  if capability = "log_message" then
    Except.ok
      { success := true,
        result := some
          [ ("message", (List.lookup "message" kwargs).getD Value.vNone),
            ("logged", Value.vBool true) ] }
  else
    db capability kwargs

/-- `MemoryToolsModule` (`memory_tools.py` lines 12-19): metadata plus the
validate-then-dispatch `run`. -/
def memoryTools (db : String → Params → Except String RunResult) : ModuleModel :=
  { name := "memory_tools",
    description := "Store and retrieve user preferences and memories",
    requires_confirmation := false,
    is_read_only := false,
    capabilities := memoryToolsCapabilities,
    run := fun c ps => Except.ok (genericRun memoryToolsCapabilities (memoryToolsImpl db) c ps) }

/-- The capability metadata of `SystemControlModule`
(`src/badi/modules/system_control.py` lines 36-129). -/
def systemControlCapabilities : List ModuleCapability :=
  [ { name := "scan_directory",
      description := "Scan a directory and list files with details",
      parameters :=
        [ { name := "path", type := "string", description := "Directory path to scan" },
          { name := "recursive", type := "bool",
            description := "Scan subdirectories recursively",
            required := false, default := some (Value.vBool false) },
          { name := "file_types", type := "list",
            description := "Filter by file extensions",
            required := false, default := none } ] },
    { name := "move_old_files",
      description := "Move files older than specified days to archive folder",
      parameters :=
        [ { name := "source_path", type := "string", description := "Source directory path" },
          { name := "days", type := "int", description := "Files older than this many days" },
          { name := "archive_path", type := "string",
            description := "Archive destination",
            required := false, default := none } ] },
    { name := "organize_by_type",
      description := "Organize files into folders by file type",
      parameters :=
        [ { name := "source_path", type := "string", description := "Directory to organize" },
          { name := "create_folders", type := "bool",
            description := "Create type-based folders",
            required := false, default := some (Value.vBool true) } ] },
    { name := "get_file_info",
      description := "Get detailed information about a file",
      parameters :=
        [ { name := "file_path", type := "string", description := "Path to file" } ] } ]

/-- `SystemControlModule` (`system_control.py` lines 19-35): file-system
metadata (`requires_confirmation = True`, `is_read_only = False`) plus the
validate-then-dispatch `run`; the file-system effects are abstracted as
`fs`. -/
def systemControl (fs : String → Params → Except String RunResult) : ModuleModel :=
  { name := "system_control",
    description := "File system operations and management",
    requires_confirmation := true,
    is_read_only := false,
    capabilities := systemControlCapabilities,
    run := fun c ps => Except.ok (genericRun systemControlCapabilities fs c ps) }

/-- A database stand-in for scenarios that never reach the database. -/
def trivialDb : String → Params → Except String RunResult :=
  fun _ _ => Except.ok { success := false, result := none, error := some "db unavailable" }

/-- A file-system stand-in whose marker payload makes an invocation of
`system_control` observable in a result list. -/
def trivialFs : String → Params → Except String RunResult :=
  fun _ _ => Except.ok { success := true, result := some [("marker", Value.vStr "ran")], error := none }

/-- The registry as the two auto-registered repository modules
(`memory_tools.py` line 144, `system_control.py` line 360). -/
def modelRegistry : Registry :=
  [memoryTools trivialDb, systemControl trivialFs]

/-! ### The validator of spec section 4.2

The repository contains no plan validator: `execute_plan` is the whole
pipeline.  The definition below follows the wording of spec section 4.2
(step-id uniqueness, dependency existence, exact partition by the parallel
groups, strictly-earlier dependency placement, all violations accumulated)
and is used only to state claims about plans that fail those checks; it is
deliberately not a translation of any source function, since none exists. -/

/-- The step ids of a plan. -/
def stepIds (plan : TaskPlan) : List Int :=
  plan.steps.map (fun s => s.id)

/-- Index of the first group containing a step id. -/
def groupIndexOf (groups : List (List Int)) (i : Int) : Option Nat :=
  groups.findIdx? (fun g => g.contains i)

/-- Modelled from the spec: the checks of section 4.2 (the source has no
validator), accumulating all violations. -/
def specValidationViolations (plan : TaskPlan) : List String :=
  let ids := stepIds plan
  let flat := orderedEntries plan
  let v1 := if ids.Nodup then [] else ["duplicate step ids"]
  let v2 := plan.steps.filterMap (fun s =>
    if s.depends_on.all (fun d => ids.contains d) then none
    else some ("unknown dependency of step " ++ toString s.id))
  let v3 := if ids.all (fun i => flat.count i == 1) && flat.all (fun i => ids.contains i)
            then [] else ["parallel groups do not partition the step ids"]
  let v4 := plan.steps.filterMap (fun s =>
    match groupIndexOf plan.parallel_groups s.id with
    | none => none
    | some gi =>
      if s.depends_on.all (fun d =>
          match groupIndexOf plan.parallel_groups d with
          | some gd => decide (gd < gi)
          | none => false)
      then none
      else some ("dependency of step " ++ toString s.id ++ " not in a strictly earlier group"))
  v1 ++ v2 ++ v3 ++ v4

/-! ### Scenario plans -/

/-- Spec Scenario C: group `[1, 2]`, step 1 a valid `memory_tools.log_message`
call, step 2 targeting the unregistered `foo.bar`. -/
def scenarioCPlan : TaskPlan :=
  { goal := "scenario c",
    steps :=
      [ { id := 1, module := "memory_tools.log_message", description := "log",
          params := [("message", Value.vStr "hi")] },
        { id := 2, module := "foo.bar", description := "unregistered" } ],
    parallel_groups := [[1, 2]] }

/-- Spec Scenario B: step 2 declares `depends_on = [1]` but both steps share
the group `[1, 2]`, so the plan fails the spec checks. -/
def scenarioBPlan : TaskPlan :=
  { goal := "scenario b",
    steps :=
      [ { id := 1, module := "memory_tools.log_message", description := "log",
          params := [("message", Value.vStr "hi")] },
        { id := 2, module := "memory_tools.log_message", description := "log again",
          params := [("message", Value.vStr "ho")], depends_on := [1] } ],
    parallel_groups := [[1, 2]] }

/-- A structurally valid plan with two independent `log_message` steps in one
group. -/
def planTwoLogs : TaskPlan :=
  { goal := "two logs",
    steps :=
      [ { id := 1, module := "memory_tools.log_message", description := "log",
          params := [("message", Value.vStr "a")] },
        { id := 2, module := "memory_tools.log_message", description := "log",
          params := [("message", Value.vStr "b")] } ],
    parallel_groups := [[1, 2]] }

/-- A one-step plan whose step lacks the required `message` parameter, so the
module returns a `success = false` result (not an exception). -/
def planMissingParam : TaskPlan :=
  { goal := "missing param",
    steps := [ { id := 1, module := "memory_tools.log_message", description := "log" } ],
    parallel_groups := [[1]] }

/-- A structurally valid one-step plan targeting an unregistered provider. -/
def planUnknownOnly : TaskPlan :=
  { goal := "unknown only",
    steps := [ { id := 1, module := "foo.bar", description := "unregistered" } ],
    parallel_groups := [[1]] }

/-- A one-step plan invoking the confirmation-requiring `system_control`
module. -/
def planSysControl : TaskPlan :=
  { goal := "confirmation",
    steps :=
      [ { id := 1, module := "system_control.organize_by_type", description := "organize",
          params := [("source_path", Value.vStr "x")] } ],
    parallel_groups := [[1]] }

/-- A provider whose operation always raises, modelling an uncaught fault. -/
def boomModule : ModuleModel :=
  { name := "boom",
    description := "always raises",
    capabilities := [],
    run := fun _ _ => Except.error "kaboom" }

/-- Registry containing the raising provider alongside the repository
modules. -/
def regBoom : Registry := boomModule :: modelRegistry

/-- A group pairing a raising step with a valid `log_message` step. -/
def planBoom : TaskPlan :=
  { goal := "fault isolation",
    steps :=
      [ { id := 1, module := "boom.go", description := "raises" },
        { id := 2, module := "memory_tools.log_message", description := "log",
          params := [("message", Value.vStr "hi")] } ],
    parallel_groups := [[1, 2]] }

/-! ### Characterising the executor fold -/

/-- Folding the per-entry outcomes into the accumulators, entry by entry. -/
def foldOutcomes (reg : Registry) (steps : List PlanStep) : List Int → Acc → Acc
  | [], acc => acc
  | sid :: rest, acc =>
    foldOutcomes reg steps rest (applyOutcome acc sid (stepOutcome reg steps sid))

/-- The `errors` entry an id contributes, when its outcome is a caught
exception. -/
def exnEntry (reg : Registry) (steps : List PlanStep) (sid : Int) : Option (Int × String) :=
  match stepOutcome reg steps sid with
  | StepOut.exn e => some (sid, e)
  | _ => none

/-- The `results` entry an id contributes, when its module ran. -/
def ranEntry (reg : Registry) (steps : List PlanStep) (sid : Int) : Option (Int × RunResult) :=
  match stepOutcome reg steps sid with
  | StepOut.ran r => some (sid, r)
  | _ => none

/-- Whether an id is counted in `steps_completed`. -/
def completedEntry (reg : Registry) (steps : List PlanStep) (sid : Int) : Bool :=
  match stepOutcome reg steps sid with
  | StepOut.ran r => r.success
  | _ => false

/-- Whether an id is counted in `steps_failed`. -/
def failedEntry (reg : Registry) (steps : List PlanStep) (sid : Int) : Bool :=
  match stepOutcome reg steps sid with
  | StepOut.ran r => !r.success
  | StepOut.exn _ => true
  | _ => false

/-- Whether a group entry is counted at all: its id must name an existing
step, and the qualified string must either lack a dot (the unpack raises) or
name a registered module.  An existing step with a dotted name whose module
is unregistered is counted in neither tally. -/
def entryCounted (reg : Registry) (steps : List PlanStep) (sid : Int) : Bool :=
  match steps.find? (fun s => s.id == sid) with
  | none => false
  | some step =>
    match splitFirstDot step.module with
    | none => true
    | some (mn, _) => (regGet reg mn).isSome

/-- The observable shape of within-group concurrent fan-out (what spawning
every step of a group before awaiting any of them produces): each step of
the group starts before any step of the group finishes. -/
def groupFanOut (tr : List Ev) (g : List Int) : Prop :=
  ∀ a ∈ g, ∀ b ∈ g, a ≠ b → tr.indexOf (Ev.started a) < tr.indexOf (Ev.finished b)

instance decidableGroupFanOut (tr : List Ev) (g : List Int) : Decidable (groupFanOut tr g) :=
  inferInstanceAs (Decidable (∀ a ∈ g, ∀ b ∈ g, a ≠ b →
    tr.indexOf (Ev.started a) < tr.indexOf (Ev.finished b)))

/-! ### A mutable-dict model of the executor, for the frame claim

Python dicts are heap objects; to state that `execute_plan` leaves the
plan's own `params` dicts untouched we thread an explicit store of dicts.
A step holds a reference into the store; `**step.params` at the call site
of `module.run` builds a fresh kwargs dict (modelled as allocation of a
copy at the end of the store); `Module.validate_parameters` mutates the
dict it is handed in place (`params[param.name] = param.default`,
`base.py` line 107).  The capability implementations of the repository
(`memory_tools.py`, `system_control.py`) only read their keyword
arguments and never assign into them, so a module's implementation is a
function of the dict value it reads. -/

/-- The heap of dicts; a reference is an index. -/
abbrev Store := List Params

/-- Dereference a dict. -/
def storeGet (st : Store) (r : Nat) : Params := st.getD r []

/-- Overwrite a dict in place. -/
def storeSet (st : Store) (r : Nat) (ps : Params) : Store := st.set r ps

/-- `PlanStep` with its `params` dict held by reference. -/
structure PlanStepR where
  id : Int
  module : String
  description : String := ""
  paramsRef : Nat
  depends_on : List Int := []
  deriving DecidableEq, Repr

/-- `TaskPlan` over referenced steps. -/
structure TaskPlanR where
  goal : String
  steps : List PlanStepR := []
  parallel_groups : List (List Int) := []
  deriving DecidableEq, Repr

/-- A capability provider in the store model: metadata plus an
implementation reading the validated parameter dict (the repository's
implementations never write into their kwargs). -/
structure StModule where
  name : String
  requires_confirmation : Bool := false
  is_read_only : Bool := true
  capabilities : List ModuleCapability := []
  impl : String → Params → RunResult

/-- The required-parameter loop of `Module.validate_parameters`, mutating
the dict at reference `r` in place. -/
def checkRequiredSt : List ModuleParameter → Store → Nat → (Bool × Option String) × Store
  | [], st, _ => ((true, none), st)
  | p :: rest, st, r =>
    if p.required && (List.lookup p.name (storeGet st r)).isNone then
      match p.default with
      | none => ((false, some ("Missing required parameter: " ++ p.name)), st)
      | some d => checkRequiredSt rest (storeSet st r (dictSet (storeGet st r) p.name d)) r
    else
      checkRequiredSt rest st r

/-- The validate-then-dispatch `run` of the repository modules, over the
store: validate (mutating the kwargs dict at `r`), fail without dispatching
when invalid, otherwise run the implementation on the validated dict. -/
def runSt (m : StModule) (capability : String) (st : Store) (r : Nat) : RunResult × Store :=
  match m.capabilities.find? (fun c => c.name == capability) with
  | none =>
    ({ success := false, result := none, error := some ("Unknown capability: " ++ capability) }, st)
  | some capDef =>
    match checkRequiredSt capDef.parameters st r with
    | ((false, err), st₁) => ({ success := false, result := none, error := err }, st₁)
    | ((true, _), st₁) => (m.impl capability (storeGet st₁ r), st₁)

/-- One group entry of `execute_plan` in the store model: `**step.params`
allocates a fresh kwargs dict holding a copy of the step's dict, and the
module runs against that fresh reference. -/
def execEntrySt (mods : List StModule) (steps : List PlanStepR) (sid : Int) :
    Acc × Store → Acc × Store
  | (acc, st) =>
    match steps.find? (fun s => s.id == sid) with
    | none => (acc, st)
    | some step =>
      match splitFirstDot step.module with
      | none =>
        ({ acc with
           errors := acc.errors ++ [(sid, unpackErrorMsg)],
           failed := acc.failed + 1 }, st)
      | some (mn, cn) =>
        match mods.find? (fun m => m.name == mn) with
        | none => (acc, st)
        | some m =>
          let st₁ := st ++ [storeGet st step.paramsRef]
          let p := runSt m cn st₁ st.length
          ({ acc with
             results := acc.results ++ [(sid, p.1)],
             completed := acc.completed + (if p.1.success then 1 else 0),
             failed := acc.failed + (if p.1.success then 0 else 1) }, p.2)

/-- The inner loop of `execute_plan` over the store. -/
def execEntriesSt (mods : List StModule) (steps : List PlanStepR) :
    List Int → Acc × Store → Acc × Store
  | [], s => s
  | sid :: rest, s => execEntriesSt mods steps rest (execEntrySt mods steps sid s)

/-- The outer loop of `execute_plan` over the store. -/
def execGroupsSt (mods : List StModule) (steps : List PlanStepR) :
    List (List Int) → Acc × Store → Acc × Store
  | [], s => s
  | g :: gs, s => execGroupsSt mods steps gs (execEntriesSt mods steps g s)

/-- `TaskExecutor.execute_plan` in the store model, returning the final
store alongside the result. -/
def executePlanSt (mods : List StModule) (plan : TaskPlanR) (require_confirmation : Bool)
    (st : Store) : ExecutionResult × Store :=
  let s := execGroupsSt mods plan.steps plan.parallel_groups (Acc.mk [] [] 0 0, st)
  ({ success := s.1.failed == 0,
     steps_completed := s.1.completed,
     steps_failed := s.1.failed,
     results := s.1.results,
     errors := s.1.errors }, s.2)

/-- `MemoryToolsModule` in the store model. -/
def memoryToolsSt : StModule :=
  { name := "memory_tools",
    requires_confirmation := false,
    is_read_only := false,
    capabilities := memoryToolsCapabilities,
    impl := fun c ps =>
      if c = "log_message" then
        { success := true,
          result := some
            [ ("message", (List.lookup "message" ps).getD Value.vNone),
              ("logged", Value.vBool true) ] }
      else
        { success := false, result := none, error := some "db unavailable" } }

/-- A one-step referenced plan whose step's dict lives at store index 0. -/
def planRLog : TaskPlanR :=
  { goal := "log",
    steps := [ { id := 1, module := "memory_tools.log_message", paramsRef := 0 } ],
    parallel_groups := [[1]] }

/-- The initial store for the frame-claim witness. -/
def storeRLog : Store := [[("message", Value.vStr "hi")]]

theorem execEntriesTr_eq (reg : Registry) (steps : List PlanStep) :
    ∀ (l : List Int) (acc : Acc) (tr : List Ev),
    execEntriesTr reg steps l (acc, tr) =
      (foldOutcomes reg steps l acc, tr ++ l.flatMap (stepEvents reg steps))
  | [], acc, tr => by simp [execEntriesTr, foldOutcomes]
  | sid :: rest, acc, tr => by
    rw [execEntriesTr, execEntriesTr_eq reg steps rest]
    simp [foldOutcomes, List.flatMap_cons, List.append_assoc]

theorem foldOutcomes_append (reg : Registry) (steps : List PlanStep) :
    ∀ (l₁ l₂ : List Int) (acc : Acc),
    foldOutcomes reg steps (l₁ ++ l₂) acc = foldOutcomes reg steps l₂ (foldOutcomes reg steps l₁ acc)
  | [], l₂, acc => by simp [foldOutcomes]
  | sid :: rest, l₂, acc => by
    rw [List.cons_append, foldOutcomes, foldOutcomes,
      foldOutcomes_append reg steps rest]

theorem execGroupsTr_eq (reg : Registry) (steps : List PlanStep) :
    ∀ (gs : List (List Int)) (acc : Acc) (tr : List Ev),
    execGroupsTr reg steps gs (acc, tr) =
      (foldOutcomes reg steps gs.flatten acc,
       tr ++ gs.flatten.flatMap (stepEvents reg steps))
  | [], acc, tr => by simp [execGroupsTr, foldOutcomes]
  | g :: gs, acc, tr => by
    rw [execGroupsTr, execEntriesTr_eq, execGroupsTr_eq reg steps gs]
    simp [foldOutcomes_append, List.append_assoc]

theorem foldOutcomes_errors (reg : Registry) (steps : List PlanStep) :
    ∀ (l : List Int) (acc : Acc),
    (foldOutcomes reg steps l acc).errors = acc.errors ++ l.filterMap (exnEntry reg steps)
  | [], acc => by simp [foldOutcomes]
  | sid :: rest, acc => by
    rw [foldOutcomes, foldOutcomes_errors reg steps rest]
    cases h : stepOutcome reg steps sid <;>
      simp [applyOutcome, exnEntry, h]

theorem foldOutcomes_results (reg : Registry) (steps : List PlanStep) :
    ∀ (l : List Int) (acc : Acc),
    (foldOutcomes reg steps l acc).results = acc.results ++ l.filterMap (ranEntry reg steps)
  | [], acc => by simp [foldOutcomes]
  | sid :: rest, acc => by
    rw [foldOutcomes, foldOutcomes_results reg steps rest]
    cases h : stepOutcome reg steps sid <;>
      simp [applyOutcome, ranEntry, h]

theorem foldOutcomes_completed (reg : Registry) (steps : List PlanStep) :
    ∀ (l : List Int) (acc : Acc),
    (foldOutcomes reg steps l acc).completed =
      acc.completed + l.countP (completedEntry reg steps)
  | [], acc => by simp [foldOutcomes]
  | sid :: rest, acc => by
    rw [foldOutcomes, foldOutcomes_completed reg steps rest]
    cases h : stepOutcome reg steps sid <;>
      simp [applyOutcome, completedEntry, h, List.countP_cons] <;> omega

theorem foldOutcomes_failed (reg : Registry) (steps : List PlanStep) :
    ∀ (l : List Int) (acc : Acc),
    (foldOutcomes reg steps l acc).failed =
      acc.failed + l.countP (failedEntry reg steps)
  | [], acc => by simp [foldOutcomes]
  | sid :: rest, acc => by
    rw [foldOutcomes, foldOutcomes_failed reg steps rest]
    cases h : stepOutcome reg steps sid with
    | notFound => simp [applyOutcome, failedEntry, h, List.countP_cons]
    | skippedUnknown mn => simp [applyOutcome, failedEntry, h, List.countP_cons]
    | ran r =>
      cases hr : r.success <;>
        simp [applyOutcome, failedEntry, h, hr, List.countP_cons] <;> omega
    | exn e =>
      simp [applyOutcome, failedEntry, h, List.countP_cons]
      omega

theorem executePlanTr_eq (reg : Registry) (plan : TaskPlan) (rc : Bool) :
    executePlanTr reg plan rc =
      (let acc := foldOutcomes reg plan.steps (orderedEntries plan) (Acc.mk [] [] 0 0)
       ({ success := acc.failed == 0,
          steps_completed := acc.completed,
          steps_failed := acc.failed,
          results := acc.results,
          errors := acc.errors },
        (orderedEntries plan).flatMap (stepEvents reg plan.steps))) := by
  unfold executePlanTr orderedEntries
  rw [execGroupsTr_eq]
  simp

theorem executePlan_errors (reg : Registry) (plan : TaskPlan) (rc : Bool) :
    (executePlan reg plan rc).errors =
      (orderedEntries plan).filterMap (exnEntry reg plan.steps) := by
  unfold executePlan
  rw [executePlanTr_eq]
  simp [foldOutcomes_errors]

theorem executePlan_results (reg : Registry) (plan : TaskPlan) (rc : Bool) :
    (executePlan reg plan rc).results =
      (orderedEntries plan).filterMap (ranEntry reg plan.steps) := by
  unfold executePlan
  rw [executePlanTr_eq]
  simp [foldOutcomes_results]

theorem executePlan_completed (reg : Registry) (plan : TaskPlan) (rc : Bool) :
    (executePlan reg plan rc).steps_completed =
      (orderedEntries plan).countP (completedEntry reg plan.steps) := by
  unfold executePlan
  rw [executePlanTr_eq]
  simp [foldOutcomes_completed]

theorem executePlan_failed (reg : Registry) (plan : TaskPlan) (rc : Bool) :
    (executePlan reg plan rc).steps_failed =
      (orderedEntries plan).countP (failedEntry reg plan.steps) := by
  unfold executePlan
  rw [executePlanTr_eq]
  simp [foldOutcomes_failed]

theorem executePlan_success_eq (reg : Registry) (plan : TaskPlan) (rc : Bool) :
    (executePlan reg plan rc).success = ((executePlan reg plan rc).steps_failed == 0) := by
  unfold executePlan
  rw [executePlanTr_eq]

theorem executeTrace_eq (reg : Registry) (plan : TaskPlan) (rc : Bool) :
    executeTrace reg plan rc = (orderedEntries plan).flatMap (stepEvents reg plan.steps) := by
  unfold executeTrace
  rw [executePlanTr_eq]

theorem completedEntry_not_failed (reg : Registry) (steps : List PlanStep) (sid : Int)
    (h : completedEntry reg steps sid = true) : failedEntry reg steps sid = false := by
  unfold completedEntry at h
  unfold failedEntry
  cases hs : stepOutcome reg steps sid <;> simp [hs] at h ⊢
  exact h

theorem entryCounted_eq_or (reg : Registry) (steps : List PlanStep) (sid : Int) :
    entryCounted reg steps sid = (completedEntry reg steps sid || failedEntry reg steps sid) := by
  unfold entryCounted completedEntry failedEntry stepOutcome
  cases h1 : steps.find? (fun s => s.id == sid) with
  | none => simp
  | some step =>
    cases h2 : splitFirstDot step.module with
    | none => simp [h2]
    | some p =>
      obtain ⟨mn, cn⟩ := p
      cases h3 : regGet reg mn with
      | none => simp [h2, h3]
      | some m =>
        cases h4 : m.run cn step.params with
        | ok r => cases hr : r.success <;> simp [h2, h3, h4, hr]
        | error e => simp [h2, h3, h4]

theorem countP_completed_add_failed (reg : Registry) (steps : List PlanStep) :
    ∀ l : List Int,
    l.countP (completedEntry reg steps) + l.countP (failedEntry reg steps) =
      l.countP (entryCounted reg steps)
  | [] => by simp
  | sid :: rest => by
    have ih := countP_completed_add_failed reg steps rest
    have hor := entryCounted_eq_or reg steps sid
    cases hc : completedEntry reg steps sid with
    | true =>
      have hf := completedEntry_not_failed reg steps sid hc
      simp [List.countP_cons, hc, hf, hor]
      omega
    | false =>
      cases hf : failedEntry reg steps sid <;>
        · simp [List.countP_cons, hc, hf, hor]
          omega

theorem splitOnFirstAux_none_iff (sep : Char) :
    ∀ (l acc : List Char), splitOnFirstAux sep l acc = none ↔ sep ∉ l
  | [], acc => by simp [splitOnFirstAux]
  | c :: rest, acc => by
    by_cases h : c = sep
    · subst h
      simp [splitOnFirstAux]
    · have h2 : ¬ sep = c := fun hh => h hh.symm
      simp [splitOnFirstAux, h, h2, splitOnFirstAux_none_iff sep rest (c :: acc)]

theorem splitOnFirstAux_some (sep : Char) :
    ∀ (l acc a b : List Char), splitOnFirstAux sep l acc = some (a, b) →
      ∃ pre, a = acc.reverse ++ pre ∧ l = pre ++ sep :: b ∧ sep ∉ pre
  | [], acc, a, b => by simp [splitOnFirstAux]
  | c :: rest, acc, a, b => by
    by_cases h : c = sep
    · subst h
      simp only [splitOnFirstAux, if_pos rfl, Option.some.injEq, Prod.mk.injEq]
      rintro ⟨rfl, rfl⟩
      exact ⟨[], by simp, by simp, by simp⟩
    · simp only [splitOnFirstAux, if_neg h]
      intro hrec
      obtain ⟨pre, ha, hl, hnp⟩ := splitOnFirstAux_some sep rest (c :: acc) a b hrec
      refine ⟨c :: pre, ?_, ?_, ?_⟩
      · simpa using ha
      · simp [hl]
      · simp only [List.mem_cons, not_or]
        exact ⟨fun hh => h hh.symm, hnp⟩

theorem splitFirstDot_none_iff (s : String) :
    splitFirstDot s = none ↔ ('.') ∉ s.toList := by
  unfold splitFirstDot
  rw [← splitOnFirstAux_none_iff ('.') s.toList []]
  cases h : splitOnFirstAux '.' s.toList [] with
  | none => simp
  | some p =>
    obtain ⟨a, b⟩ := p
    simp

theorem splitFirstDot_some_eq (s a b : String)
    (h : splitFirstDot s = some (a, b)) :
    s.toList = a.toList ++ ('.') :: b.toList ∧ ('.') ∉ a.toList := by
  unfold splitFirstDot at h
  cases haux : splitOnFirstAux '.' s.toList [] with
  | none => rw [haux] at h; exact absurd h (by simp)
  | some p =>
    obtain ⟨la, lb⟩ := p
    rw [haux] at h
    simp only [Option.some.injEq, Prod.mk.injEq] at h
    obtain ⟨ha, hb⟩ := h
    obtain ⟨pre, hpre, hl, hnp⟩ := splitOnFirstAux_some '.' s.toList [] la lb haux
    simp only [List.reverse_nil, List.nil_append] at hpre
    subst ha hb hpre
    exact ⟨hl, hnp⟩

theorem lookup_append_pair :
    ∀ (ps : Params) (k k' : String) (v : Value),
    List.lookup k' (ps ++ [(k, v)]) =
      match List.lookup k' ps with
      | some w => some w
      | none => if k' == k then some v else none
  | [], k, k', v => by
    by_cases h : (k' == k) = true <;> simp [List.lookup, h]
  | (a, b) :: rest, k, k', v => by
    simp only [List.cons_append, List.lookup]
    by_cases h : (k' == a) = true <;> simp [h, lookup_append_pair rest k k' v]

theorem lookup_dictSet_of_absent (ps : Params) (k : String) (v : Value)
    (habs : List.lookup k ps = none) (k' : String) :
    List.lookup k' (dictSet ps k v) = if k' = k then some v else List.lookup k' ps := by
  have hd : dictSet ps k v = ps ++ [(k, v)] := by
    unfold dictSet
    rw [habs]
    simp
  rw [hd, lookup_append_pair]
  by_cases h : k' = k
  · subst h
    rw [habs]
    simp
  · cases hlk : List.lookup k' ps with
    | none => simp [h]
    | some w => simp [h]

theorem checkRequired_stable :
    ∀ (descs : List ModuleParameter) (ps : Params) (k : String) (x : Value),
    List.lookup k ps = some x → List.lookup k (checkRequired descs ps).2.2 = some x
  | [], ps, k, x, h => by simpa [checkRequired] using h
  | p :: rest, ps, k, x, h => by
    rw [checkRequired]
    by_cases hc : (p.required && (List.lookup p.name ps).isNone) = true
    · rw [if_pos hc]
      cases hd : p.default with
      | none => simpa using h
      | some d =>
        have habs : List.lookup p.name ps = none := by
          rcases Bool.and_eq_true_iff.mp hc with ⟨_, h2⟩
          simpa [Option.isNone_iff_eq_none] using h2
        have hk : k ≠ p.name := by
          intro hkk
          rw [hkk, habs] at h
          exact absurd h (by simp)
        refine checkRequired_stable rest _ k x ?_
        rw [lookup_dictSet_of_absent _ _ _ habs, if_neg hk]
        exact h
    · rw [if_neg hc]
      exact checkRequired_stable rest ps k x h

theorem checkRequired_missing :
    ∀ (descs : List ModuleParameter) (ps : Params) (p : ModuleParameter),
    (descs.map (fun q => q.name)).Nodup → p ∈ descs → p.required = true →
    p.default = none → List.lookup p.name ps = none →
    (checkRequired descs ps).1 = false
  | [], _, p, _, hp, _, _, _ => absurd hp (by simp)
  | q :: rest, ps, p, hnd, hp, hreq, hdef, habs => by
    rw [List.map_cons, List.nodup_cons] at hnd
    obtain ⟨hq, hnd2⟩ := hnd
    rw [checkRequired]
    rcases List.mem_cons.mp hp with rfl | hp2
    · rw [if_pos (by simp [hreq, habs]), hdef]
    · by_cases hc : (q.required && (List.lookup q.name ps).isNone) = true
      · rw [if_pos hc]
        cases hd : q.default with
        | none => rfl
        | some d =>
          have habs2 : List.lookup q.name ps = none := by
            rcases Bool.and_eq_true_iff.mp hc with ⟨_, h2⟩
            simpa [Option.isNone_iff_eq_none] using h2
          have hne : p.name ≠ q.name := by
            intro he
            exact hq (he ▸ List.mem_map_of_mem (fun x => x.name) hp2)
          refine checkRequired_missing rest _ p hnd2 hp2 hreq hdef ?_
          rw [lookup_dictSet_of_absent _ _ _ habs2, if_neg hne]
          exact habs
      · rw [if_neg hc]
        exact checkRequired_missing rest ps p hnd2 hp2 hreq hdef habs

theorem checkRequired_fills :
    ∀ (descs : List ModuleParameter) (ps : Params) (p : ModuleParameter) (d : Value),
    (descs.map (fun q => q.name)).Nodup → p ∈ descs → p.required = true →
    p.default = some d → List.lookup p.name ps = none →
    (checkRequired descs ps).1 = true →
    List.lookup p.name (checkRequired descs ps).2.2 = some d
  | [], _, p, _, _, hp, _, _, _, _ => absurd hp (by simp)
  | q :: rest, ps, p, d, hnd, hp, hreq, hdef, habs, hres => by
    rw [List.map_cons, List.nodup_cons] at hnd
    obtain ⟨hq, hnd2⟩ := hnd
    rw [checkRequired] at hres ⊢
    rcases List.mem_cons.mp hp with rfl | hp2
    · rw [if_pos (by simp [hreq, habs]), hdef] at hres ⊢
      refine checkRequired_stable rest _ p.name d ?_
      rw [lookup_dictSet_of_absent _ _ _ habs]
      simp
    · by_cases hc : (q.required && (List.lookup q.name ps).isNone) = true
      · rw [if_pos hc] at hres ⊢
        cases hd : q.default with
        | none =>
          rw [hd] at hres
          simp at hres
        | some d2 =>
          rw [hd] at hres
          have habs2 : List.lookup q.name ps = none := by
            rcases Bool.and_eq_true_iff.mp hc with ⟨_, h2⟩
            simpa [Option.isNone_iff_eq_none] using h2
          have hne : p.name ≠ q.name := by
            intro he
            exact hq (he ▸ List.mem_map_of_mem (fun x => x.name) hp2)
          refine checkRequired_fills rest _ p d hnd2 hp2 hreq hdef ?_ hres
          rw [lookup_dictSet_of_absent _ _ _ habs2, if_neg hne]
          exact habs
      · rw [if_neg hc] at hres ⊢
        exact checkRequired_fills rest ps p d hnd2 hp2 hreq hdef habs hres

theorem checkRequired_preserves :
    ∀ (descs : List ModuleParameter) (ps : Params) (k : String),
    (∀ p ∈ descs, p.required = true → p.name ≠ k) →
    List.lookup k (checkRequired descs ps).2.2 = List.lookup k ps
  | [], _, _, _ => rfl
  | q :: rest, ps, k, h => by
    rw [checkRequired]
    by_cases hc : (q.required && (List.lookup q.name ps).isNone) = true
    · rw [if_pos hc]
      have hqreq : q.required = true := (Bool.and_eq_true_iff.mp hc).1
      cases hd : q.default with
      | none => rfl
      | some d =>
        have habs2 : List.lookup q.name ps = none := by
          rcases Bool.and_eq_true_iff.mp hc with ⟨_, h2⟩
          simpa [Option.isNone_iff_eq_none] using h2
        rw [checkRequired_preserves rest _ k (fun p hp => h p (List.mem_cons_of_mem q hp)),
          lookup_dictSet_of_absent _ _ _ habs2,
          if_neg (fun he => h q (List.mem_cons_self q rest) hqreq he.symm)]
    · rw [if_neg hc]
      exact checkRequired_preserves rest ps k (fun p hp => h p (List.mem_cons_of_mem q hp))

theorem storeGet_set_ne (st : Store) (r : Nat) (ps : Params) (i : Nat) (h : i ≠ r) :
    storeGet (storeSet st r ps) i = storeGet st i := by
  unfold storeGet storeSet
  rw [List.getD_eq_getElem?_getD, List.getD_eq_getElem?_getD,
    List.getElem?_set_ne (Ne.symm h)]

theorem storeGet_append_left (st : Store) (x : Params) (i : Nat) (h : i < st.length) :
    storeGet (st ++ [x]) i = storeGet st i := by
  unfold storeGet
  rw [List.getD_eq_getElem?_getD, List.getD_eq_getElem?_getD,
    List.getElem?_append_left h]

theorem checkRequiredSt_length :
    ∀ (descs : List ModuleParameter) (st : Store) (r : Nat),
    ((checkRequiredSt descs st r).2).length = st.length
  | [], _, _ => rfl
  | p :: rest, st, r => by
    rw [checkRequiredSt]
    by_cases hc : (p.required && (List.lookup p.name (storeGet st r)).isNone) = true
    · rw [if_pos hc]
      cases hd : p.default with
      | none => rfl
      | some d =>
        rw [checkRequiredSt_length rest]
        exact List.length_set st r _
    · rw [if_neg hc]
      exact checkRequiredSt_length rest st r

theorem checkRequiredSt_get_ne :
    ∀ (descs : List ModuleParameter) (st : Store) (r i : Nat), i ≠ r →
    storeGet (checkRequiredSt descs st r).2 i = storeGet st i
  | [], _, _, _, _ => rfl
  | p :: rest, st, r, i, h => by
    rw [checkRequiredSt]
    by_cases hc : (p.required && (List.lookup p.name (storeGet st r)).isNone) = true
    · rw [if_pos hc]
      cases hd : p.default with
      | none => rfl
      | some d =>
        rw [checkRequiredSt_get_ne rest _ r i h, storeGet_set_ne st r _ i h]
    · rw [if_neg hc]
      exact checkRequiredSt_get_ne rest st r i h

theorem runSt_length (m : StModule) (cap : String) (st : Store) (r : Nat) :
    ((runSt m cap st r).2).length = st.length := by
  unfold runSt
  cases h : m.capabilities.find? (fun c => c.name == cap) with
  | none => rfl
  | some capDef =>
    have hl := checkRequiredSt_length capDef.parameters st r
    rcases hck : checkRequiredSt capDef.parameters st r with ⟨⟨b, e⟩, st₁⟩
    rw [hck] at hl
    cases b <;> simpa [hck] using hl

theorem runSt_get_ne (m : StModule) (cap : String) (st : Store) (r i : Nat) (h : i ≠ r) :
    storeGet (runSt m cap st r).2 i = storeGet st i := by
  unfold runSt
  cases hf : m.capabilities.find? (fun c => c.name == cap) with
  | none => rfl
  | some capDef =>
    have hg := checkRequiredSt_get_ne capDef.parameters st r i h
    rcases hck : checkRequiredSt capDef.parameters st r with ⟨⟨b, e⟩, st₁⟩
    rw [hck] at hg
    cases b <;> simpa [hck] using hg

theorem execEntrySt_preserve (mods : List StModule) (steps : List PlanStepR) (sid : Int)
    (acc : Acc) (st : Store) (n : Nat) (hn : n ≤ st.length) :
    n ≤ ((execEntrySt mods steps sid (acc, st)).2).length ∧
    ∀ i, i < n → storeGet (execEntrySt mods steps sid (acc, st)).2 i = storeGet st i := by
  cases h1 : steps.find? (fun s => s.id == sid) with
  | none =>
    simp only [execEntrySt, h1]
    exact ⟨hn, fun _ _ => trivial⟩
  | some step =>
    cases h2 : splitFirstDot step.module with
    | none =>
      simp only [execEntrySt, h1, h2]
      exact ⟨hn, fun _ _ => trivial⟩
    | some p =>
      obtain ⟨mn, cn⟩ := p
      cases h3 : mods.find? (fun m => m.name == mn) with
      | none =>
        simp only [execEntrySt, h1, h2, h3]
        exact ⟨hn, fun _ _ => trivial⟩
      | some m =>
        simp only [execEntrySt, h1, h2, h3]
        have hlen := runSt_length m cn (st ++ [storeGet st step.paramsRef]) st.length
        simp only [List.length_append, List.length_cons, List.length_nil] at hlen
        constructor
        · simp only [hlen]
          omega
        · intro i hi
          rw [runSt_get_ne m cn _ st.length i (by omega),
            storeGet_append_left st _ i (by omega)]

theorem execEntriesSt_preserve (mods : List StModule) (steps : List PlanStepR) :
    ∀ (l : List Int) (acc : Acc) (st : Store) (n : Nat), n ≤ st.length →
    n ≤ ((execEntriesSt mods steps l (acc, st)).2).length ∧
    ∀ i, i < n → storeGet (execEntriesSt mods steps l (acc, st)).2 i = storeGet st i
  | [], acc, st, n, hn => ⟨hn, fun _ _ => rfl⟩
  | sid :: rest, acc, st, n, hn => by
    rw [execEntriesSt]
    rcases hstep : execEntrySt mods steps sid (acc, st) with ⟨acc₁, st₁⟩
    have h1 := execEntrySt_preserve mods steps sid acc st n hn
    rw [hstep] at h1
    have h2 := execEntriesSt_preserve mods steps rest acc₁ st₁ n h1.1
    exact ⟨h2.1, fun i hi => (h2.2 i hi).trans (h1.2 i hi)⟩

theorem execGroupsSt_preserve (mods : List StModule) (steps : List PlanStepR) :
    ∀ (gs : List (List Int)) (acc : Acc) (st : Store) (n : Nat), n ≤ st.length →
    n ≤ ((execGroupsSt mods steps gs (acc, st)).2).length ∧
    ∀ i, i < n → storeGet (execGroupsSt mods steps gs (acc, st)).2 i = storeGet st i
  | [], acc, st, n, hn => ⟨hn, fun _ _ => rfl⟩
  | g :: gs, acc, st, n, hn => by
    rw [execGroupsSt]
    rcases hstep : execEntriesSt mods steps g (acc, st) with ⟨acc₁, st₁⟩
    have h1 := execEntriesSt_preserve mods steps g acc st n hn
    rw [hstep] at h1
    have h2 := execGroupsSt_preserve mods steps gs acc₁ st₁ n h1.1
    exact ⟨h2.1, fun i hi => (h2.2 i hi).trans (h1.2 i hi)⟩

/-! ### The claims -/

/-- Claim C1, counterexample.  The claim says a plan failing the validation
checks is rejected atomically, with execution never beginning and no step
running.  Scenario B's plan fails the checks (its dependency shares the
dependent's group), yet execution begins and a step completes: the source
contains no validator at all. -/
theorem c1_counterexample :
    specValidationViolations scenarioBPlan ≠ [] ∧
    executeTrace modelRegistry scenarioBPlan true ≠ [] ∧
    (executePlan modelRegistry scenarioBPlan true).steps_completed ≠ 0 := by
  refine ⟨by decide, by decide, by decide⟩

/-- Claim C1, amended.  The repository has no plan validator: `execute_plan`
executes every plan unconditionally.  Scenario B's plan violates the
strictly-earlier-group check of spec section 4.2, yet both its steps start,
run and are counted completed. -/
theorem c1_theorem :
    specValidationViolations scenarioBPlan =
      ["dependency of step 2 not in a strictly earlier group"] ∧
    (executePlan modelRegistry scenarioBPlan true).steps_completed = 2 ∧
    (executePlan modelRegistry scenarioBPlan true).steps_failed = 0 ∧
    Ev.started 1 ∈ executeTrace modelRegistry scenarioBPlan true ∧
    Ev.started 2 ∈ executeTrace modelRegistry scenarioBPlan true := by
  refine ⟨by decide, by decide, by decide, by decide, by decide⟩

/-- Claim C2, counterexample.  Scenario C (step 1 a valid `log_message`
call, step 2 targeting the unregistered `foo.bar`) does not yield
`stepsFailed = 1` with an `unknown module: foo` error entry: the unknown
module is silently skipped, leaving `stepsFailed = 0` and `errors = []`. -/
theorem c2_counterexample :
    (executePlan modelRegistry scenarioCPlan true).steps_completed = 1 ∧
    (executePlan modelRegistry scenarioCPlan true).steps_failed = 0 ∧
    (executePlan modelRegistry scenarioCPlan true).errors = [] ∧
    (2, "unknown module: foo") ∉ (executePlan modelRegistry scenarioCPlan true).errors := by
  refine ⟨by decide, by decide, by decide, by decide⟩

/-- Claim C2, amended.  A step whose qualified name parses but whose module
prefix is unregistered is silently skipped: it contributes nothing to the
accumulators (no result, no error entry, counted in neither tally) and only
a started/finished pair to the trace, so sibling steps are unaffected. -/
theorem c2_theorem (reg : Registry) (steps : List PlanStep) (sid : Int) (step : PlanStep)
    (mn cn : String)
    (hfind : steps.find? (fun s => s.id == sid) = some step)
    (hsplit : splitFirstDot step.module = some (mn, cn))
    (hget : regGet reg mn = none) :
    (∀ acc : Acc, applyOutcome acc sid (stepOutcome reg steps sid) = acc) ∧
    stepEvents reg steps sid = [Ev.started sid, Ev.finished sid] := by
  have hout : stepOutcome reg steps sid = StepOut.skippedUnknown mn := by
    simp only [stepOutcome, hfind, hsplit, hget]
  refine ⟨?_, ?_⟩
  · intro acc
    rw [hout]
    rfl
  · simp only [stepEvents, hfind, hsplit, hget]

/-- Claim C2, witness: the unregistered step 2 of Scenario C contributes
nothing. -/
theorem c2_witness :
    applyOutcome (Acc.mk [] [] 0 0) 2 (stepOutcome modelRegistry scenarioCPlan.steps 2) =
      Acc.mk [] [] 0 0 ∧
    stepEvents modelRegistry scenarioCPlan.steps 2 = [Ev.started 2, Ev.finished 2] := by
  have h := c2_theorem modelRegistry scenarioCPlan.steps 2
    { id := 2, module := "foo.bar", description := "unregistered" } "foo" "bar"
    (by decide) (by decide) rfl
  exact ⟨h.1 (Acc.mk [] [] 0 0), h.2⟩

/-- Claim C3, counterexample.  For a validated plan with the two-step group
`[1, 2]`, the trace serialises the steps — step 1 finishes before step 2
starts — so steps of a group are not run as independent concurrent tasks
(the loop awaits each step before reaching the next). -/
theorem c3_counterexample :
    specValidationViolations planTwoLogs = [] ∧
    ¬ groupFanOut (executeTrace modelRegistry planTwoLogs true) [1, 2] := by
  refine ⟨by decide, by decide⟩

/-- Claim C3, amended.  Groups execute strictly in list order and, within a
group, steps execute sequentially in the listed order: the trace is exactly
the concatenation of the per-entry event blocks in the order the groups
list them, so every step reaches its terminal state before the next entry
starts and no concurrency exists. -/
theorem c3_theorem (reg : Registry) (plan : TaskPlan) (rc : Bool) :
    executeTrace reg plan rc = (orderedEntries plan).flatMap (stepEvents reg plan.steps) :=
  executeTrace_eq reg plan rc

/-- Claim C4.  A provider operation raising an uncaught fault is caught and
converted: the step's id and the fault text are appended to `errors`, the
step is counted in `stepsFailed`, the run continues to a normal result, and
every sibling's outcome is untouched — replacing the faulting module's
registry entry by anything at all leaves the outcome of every step that
resolves to a different module name unchanged. -/
theorem c4_theorem (reg : Registry) (plan : TaskPlan) (rc : Bool) (sid : Int)
    (step : PlanStep) (mn cn e : String) (m : ModuleModel)
    (hmem : sid ∈ orderedEntries plan)
    (hfind : plan.steps.find? (fun s => s.id == sid) = some step)
    (hsplit : splitFirstDot step.module = some (mn, cn))
    (hget : regGet reg mn = some m)
    (hrun : m.run cn step.params = Except.error e) :
    (sid, e) ∈ (executePlan reg plan rc).errors ∧
    1 ≤ (executePlan reg plan rc).steps_failed ∧
    (∀ (reg₂ : Registry) (sid₂ : Int) (step₂ : PlanStep) (mn₂ cn₂ : String),
        plan.steps.find? (fun s => s.id == sid₂) = some step₂ →
        splitFirstDot step₂.module = some (mn₂, cn₂) →
        mn₂ ≠ mn →
        (∀ n, n ≠ mn → regGet reg₂ n = regGet reg n) →
        stepOutcome reg₂ plan.steps sid₂ = stepOutcome reg plan.steps sid₂) := by
  have hout : stepOutcome reg plan.steps sid = StepOut.exn e := by
    simp only [stepOutcome, hfind, hsplit, hget, hrun]
  refine ⟨?_, ?_, ?_⟩
  · rw [executePlan_errors]
    exact List.mem_filterMap.mpr ⟨sid, hmem, by simp [exnEntry, hout]⟩
  · rw [executePlan_failed]
    exact List.countP_pos_iff.mpr ⟨sid, hmem, by simp [failedEntry, hout]⟩
  · intro reg₂ sid₂ step₂ mn₂ cn₂ hfind₂ hsplit₂ hne hagree
    simp only [stepOutcome, hfind₂, hsplit₂, hagree mn₂ hne]

/-- Claim C4, witness: `planBoom` pairs a raising step with a valid one. -/
theorem c4_witness :
    (1, "kaboom") ∈ (executePlan regBoom planBoom true).errors ∧
    1 ≤ (executePlan regBoom planBoom true).steps_failed := by
  have h := c4_theorem regBoom planBoom true 1
    { id := 1, module := "boom.go", description := "raises" } "boom" "go" "kaboom"
    boomModule (by decide) (by decide) (by decide) rfl rfl
  exact ⟨h.1, h.2.1⟩

/-- Claim C5, counterexample.  `system_control` has
`requires_confirmation = true` and `is_read_only = false`, the executor is
called with `require_confirmation = true`, and no confirmation callback
exists anywhere in the code — yet the provider is invoked (its marker
payload lands in `results`) and the step succeeds instead of being
denied. -/
theorem c5_counterexample :
    (regGet modelRegistry "system_control").map (fun m => m.requires_confirmation) =
      some true ∧
    (regGet modelRegistry "system_control").map (fun m => m.is_read_only) = some false ∧
    Ev.invoked 1 "system_control" "organize_by_type" ∈
      executeTrace modelRegistry planSysControl true ∧
    (executePlan modelRegistry planSysControl true).results =
      [(1, { success := true, result := some [("marker", Value.vStr "ran")],
             error := none })] ∧
    (executePlan modelRegistry planSysControl true).steps_failed = 0 := by
  refine ⟨rfl, rfl, by decide, rfl, rfl⟩

/-- Claim C5, amended.  The executor has no permission gate: the
`require_confirmation` argument is ignored entirely, and every step that
resolves to a registered module gets that module's `run` invoked, whatever
its `requires_confirmation` and `is_read_only` flags; no denial outcome
exists in the code. -/
theorem c5_theorem :
    (∀ (reg : Registry) (plan : TaskPlan) (a b : Bool),
        executePlanTr reg plan a = executePlanTr reg plan b) ∧
    (∀ (reg : Registry) (plan : TaskPlan) (rc : Bool) (sid : Int) (step : PlanStep)
        (mn cn : String) (m : ModuleModel),
        sid ∈ orderedEntries plan →
        plan.steps.find? (fun s => s.id == sid) = some step →
        splitFirstDot step.module = some (mn, cn) →
        regGet reg mn = some m →
        Ev.invoked sid mn cn ∈ executeTrace reg plan rc) := by
  refine ⟨fun _ _ _ _ => rfl, ?_⟩
  intro reg plan rc sid step mn cn m hmem hfind hsplit hget
  rw [executeTrace_eq]
  refine List.mem_flatMap.mpr ⟨sid, hmem, ?_⟩
  simp [stepEvents, hfind, hsplit, hget]

/-- Claim C5, witness: the confirmation-requiring `system_control` module is
invoked. -/
theorem c5_witness :
    Ev.invoked 1 "system_control" "organize_by_type" ∈
      executeTrace modelRegistry planSysControl true :=
  c5_theorem.2 modelRegistry planSysControl true 1
    { id := 1, module := "system_control.organize_by_type", description := "organize",
      params := [("source_path", Value.vStr "x")] }
    "system_control" "organize_by_type" (systemControl trivialFs)
    (by decide) (by decide) rfl rfl

/-- Claim C6, counterexample.  `organize_by_type` declares the optional
parameter `create_folders` with default value `true`; validating a bag
lacking it succeeds without filling the default in — contrary to the claim
that every absent parameter carrying a declared default is filled. -/
theorem c6_counterexample :
    validateParameters systemControlCapabilities "organize_by_type"
        [("source_path", Value.vStr "d")] =
      (true, none, [("source_path", Value.vStr "d")]) ∧
    (∃ c ∈ systemControlCapabilities, c.name = "organize_by_type" ∧
      ∃ p ∈ c.parameters, p.name = "create_folders" ∧
        p.default = some (Value.vBool true)) := by
  refine ⟨rfl, by decide⟩

/-- Claim C6, amended.  When validation fails the step's run returns the
parameter error without invoking any implementation (the result does not
depend on the implementation); a required parameter absent with no declared
default makes validation fail; a required parameter absent with a declared
default is filled in whenever validation succeeds; parameters whose
descriptors are not required (in particular optional ones with defaults)
are never written into the bag. -/
theorem c6_theorem :
    (∀ (caps : List ModuleCapability) (cap : String) (ps ps₂ : Params) (e : String)
        (impl impl₂ : String → Params → Except String RunResult),
        validateParameters caps cap ps = (false, some e, ps₂) →
        genericRun caps impl cap ps =
          { success := false, result := none, error := some e } ∧
        genericRun caps impl cap ps = genericRun caps impl₂ cap ps) ∧
    (∀ (descs : List ModuleParameter) (ps : Params) (p : ModuleParameter),
        (descs.map (fun q => q.name)).Nodup → p ∈ descs → p.required = true →
        p.default = none → List.lookup p.name ps = none →
        (checkRequired descs ps).1 = false) ∧
    (∀ (descs : List ModuleParameter) (ps : Params) (p : ModuleParameter) (d : Value),
        (descs.map (fun q => q.name)).Nodup → p ∈ descs → p.required = true →
        p.default = some d → List.lookup p.name ps = none →
        (checkRequired descs ps).1 = true →
        List.lookup p.name (checkRequired descs ps).2.2 = some d) ∧
    (∀ (descs : List ModuleParameter) (ps : Params) (k : String),
        (∀ p ∈ descs, p.required = true → p.name ≠ k) →
        List.lookup k (checkRequired descs ps).2.2 = List.lookup k ps) := by
  refine ⟨?_, checkRequired_missing, checkRequired_fills, checkRequired_preserves⟩
  intro caps cap ps ps₂ e impl impl₂ hval
  constructor
  · unfold genericRun
    rw [hval]
  · unfold genericRun
    rw [hval]

/-- Claim C6, witness: `log_message` without its required `message`
parameter fails with the parameter error, independent of the
implementation. -/
theorem c6_witness :
    genericRun memoryToolsCapabilities (memoryToolsImpl trivialDb) "log_message" [] =
      { success := false, result := none,
        error := some "Missing required parameter: message" } :=
  (c6_theorem.1 memoryToolsCapabilities "log_message" [] []
    "Missing required parameter: message" (memoryToolsImpl trivialDb)
    (memoryToolsImpl trivialDb) rfl).1

/-- Claim C7, counterexample.  `planUnknownOnly` passes every spec check and
no timeout exists, yet `stepsCompleted + stepsFailed = 0` while its single
group lists one step: a step whose module is unregistered is counted in
neither tally. -/
theorem c7_counterexample :
    specValidationViolations planUnknownOnly = [] ∧
    (orderedEntries planUnknownOnly).length = 1 ∧
    (executePlan modelRegistry planUnknownOnly true).steps_completed +
      (executePlan modelRegistry planUnknownOnly true).steps_failed = 0 := by
  refine ⟨by decide, by decide, by decide⟩

/-- Claim C7, amended.  For every plan (no timeout exists in the code),
`stepsCompleted + stepsFailed` equals the number of group entries that are
counted at all: those naming an existing step whose qualified string either
lacks a dot (the unpack raises, counted failed) or names a registered
module.  `success` is exactly `stepsFailed == 0`. -/
theorem c7_theorem (reg : Registry) (plan : TaskPlan) (rc : Bool) :
    (executePlan reg plan rc).steps_completed + (executePlan reg plan rc).steps_failed =
      (orderedEntries plan).countP (entryCounted reg plan.steps) ∧
    (executePlan reg plan rc).success = ((executePlan reg plan rc).steps_failed == 0) := by
  refine ⟨?_, executePlan_success_eq reg plan rc⟩
  rw [executePlan_completed, executePlan_failed, countP_completed_add_failed]

/-- Claim C8, counterexample.  `planMissingParam`'s single step returns a
`success = false` result (missing required parameter) and is counted
failed, yet `errors` stays empty: the caller reading `errors` never sees
this failure's description (it sits only inside `results`). -/
theorem c8_counterexample :
    (executePlan modelRegistry planMissingParam true).steps_failed = 1 ∧
    (executePlan modelRegistry planMissingParam true).errors = [] ∧
    (executePlan modelRegistry planMissingParam true).results =
      [(1, { success := false, result := none,
             error := some "Missing required parameter: message" })] := by
  refine ⟨rfl, rfl, rfl⟩

/-- Claim C8, amended.  `errors` entries come exactly from caught
exceptions; a step whose module returns a `success = false` result is
counted in `stepsFailed` but never gets an `errors` entry — its error text
appears only inside its `results` entry. -/
theorem c8_theorem (reg : Registry) (plan : TaskPlan) (rc : Bool) :
    (executePlan reg plan rc).errors =
      (orderedEntries plan).filterMap (exnEntry reg plan.steps) ∧
    (executePlan reg plan rc).results =
      (orderedEntries plan).filterMap (ranEntry reg plan.steps) ∧
    (∀ (sid : Int) (r : RunResult), stepOutcome reg plan.steps sid = StepOut.ran r →
        ∀ e : String, (sid, e) ∉ (executePlan reg plan rc).errors) := by
  refine ⟨executePlan_errors reg plan rc, executePlan_results reg plan rc, ?_⟩
  intro sid r hran e hmem
  rw [executePlan_errors] at hmem
  obtain ⟨sid₂, hmem₂, hf⟩ := List.mem_filterMap.mp hmem
  unfold exnEntry at hf
  cases hout : stepOutcome reg plan.steps sid₂ with
  | notFound => rw [hout] at hf; simp at hf
  | skippedUnknown mn₂ => rw [hout] at hf; simp at hf
  | ran r₂ => rw [hout] at hf; simp at hf
  | exn e₂ =>
    rw [hout] at hf
    simp only [Option.some.injEq, Prod.mk.injEq] at hf
    rw [hf.1] at hout
    rw [hout] at hran
    exact absurd hran (by simp)

/-- Claim C8, witness: a `success = false` step never appears in `errors`. -/
theorem c8_witness :
    ((1 : Int), "boo") ∉ (executePlan modelRegistry planMissingParam true).errors :=
  (c8_theorem modelRegistry planMissingParam true).2.2 1
    { success := false, result := none,
      error := some "Missing required parameter: message" }
    rfl "boo"

/-- Claim C9.  `get_capability` returns a pair exactly when the string has a
separator, the prefix before the first separator names a registered module,
and the suffix is among that module's declared capability names; a dotless
string, an unknown module, or an undeclared capability each give `none`;
and `splitFirstDot` does split around the first separator. -/
theorem c9_theorem :
    (∀ (reg : Registry) (full : String) (m : ModuleModel) (c : String),
        getCapability reg full = some (m, c) ↔
          ∃ mn, splitFirstDot full = some (mn, c) ∧ regGet reg mn = some m ∧
            c ∈ getCapabilityNames m) ∧
    (∀ s : String, splitFirstDot s = none ↔ ('.') ∉ s.toList) ∧
    (∀ (s a b : String), splitFirstDot s = some (a, b) →
        s.toList = a.toList ++ ('.') :: b.toList ∧ ('.') ∉ a.toList) := by
  refine ⟨?_, splitFirstDot_none_iff, splitFirstDot_some_eq⟩
  intro reg full m c
  unfold getCapability
  cases h : splitFirstDot full with
  | none => simp
  | some p =>
    obtain ⟨mn₀, cn₀⟩ := p
    cases hg : regGet reg mn₀ with
    | none =>
      simp only [hg]
      constructor
      · intro hx
        exact absurd hx (by simp)
      · rintro ⟨mn, hmn, hreg, hc⟩
        simp only [Option.some.injEq, Prod.mk.injEq] at hmn
        rw [hmn.1] at hg
        rw [hg] at hreg
        exact absurd hreg (by simp)
    | some m₀ =>
      simp only [hg]
      by_cases hmem : cn₀ ∈ getCapabilityNames m₀
      · rw [if_pos hmem]
        constructor
        · intro hx
          simp only [Option.some.injEq, Prod.mk.injEq] at hx
          refine ⟨mn₀, by rw [hx.2], ?_, ?_⟩
          · rw [← hx.1]
            exact hg
          · rw [← hx.1, ← hx.2]
            exact hmem
        · rintro ⟨mn, hmn, hreg, hc⟩
          simp only [Option.some.injEq, Prod.mk.injEq] at hmn
          rw [hmn.1] at hg
          rw [hg] at hreg
          simp only [Option.some.injEq] at hreg
          rw [hreg, hmn.2]
      · rw [if_neg hmem]
        constructor
        · intro hx
          exact absurd hx (by simp)
        · rintro ⟨mn, hmn, hreg, hc⟩
          simp only [Option.some.injEq, Prod.mk.injEq] at hmn
          rw [hmn.1] at hg
          rw [hg] at hreg
          simp only [Option.some.injEq] at hreg
          rw [← hreg, ← hmn.2] at hc
          exact absurd hc hmem

/-- Claim C10.  Executing any plan against providers following the
repository's validate-then-dispatch pattern leaves every dict that existed
before the call unchanged: each invocation validates and mutates a fresh
kwargs copy allocated by `**step.params`, so the plan's own params dicts
(and everything else in the initial store) are intact when `execute_plan`
returns; the plan record itself is never rebuilt. -/
theorem c10_theorem (mods : List StModule) (plan : TaskPlanR) (rc : Bool) (st : Store)
    (i : Nat) (h : i < st.length) :
    storeGet ((executePlanSt mods plan rc st).2) i = storeGet st i := by
  have hp := execGroupsSt_preserve mods plan.steps plan.parallel_groups
    (Acc.mk [] [] 0 0) st st.length le_rfl
  exact hp.2 i h

/-- Claim C10, witness: running `planRLog` leaves the plan's dict at store
index 0 unchanged. -/
theorem c10_witness :
    storeGet ((executePlanSt [memoryToolsSt] planRLog true storeRLog).2) 0 =
      storeGet storeRLog 0 :=
  c10_theorem [memoryToolsSt] planRLog true storeRLog 0 (by decide)

end BADI
